import Mathlib

/-!
Verification of the fiber scheduling core (`src/component/fibers.ts`).

The module is embedded shallowly:

* The tree of pending fibers reachable through the `children` lists is an
  inductive rose tree `FiberTree`; each fiber carries the fields of the
  `Fiber` class that the claims mention (`node`, `bdom`, `root`), with `bdom`
  abstracted to a `Bool` recording whether the render output is set.
* `cancelFibers` is the direct translation of the source function: it walks a
  forest, clears each visited fiber's node back-reference (collected in a
  list of node ids), reassigns `root`, and counts fibers with unset output.
* Root-fiber-level bookkeeping (`counter`, recycling in `makeRootFiber`,
  reconciliation in `makeChildFiber`) is modelled by explicit state records.
* `RootFiber.complete` and `MountFiber.complete` are modelled as pure
  functions from an explicit pre-state (hook queues, node callback tables,
  `node.fiber` table, throw flags for callbacks and for the patch/mount
  primitives) to a result record carrying the event log of callback
  invocations, the final `locked` flag, and the `handleError` call, if any.
-/

namespace OwlFibers

/-- Fields of the `Fiber` class needed by the claims.  `bdom : Bool` records
whether the render output is set (`fiber.bdom` non-null in the source);
`root` is the fiber id of the governing root fiber. -/
structure FiberData where
  fid : Nat
  node : Nat
  bdom : Bool
  root : Nat
  deriving Repr, DecidableEq

/-- The tree of pending fibers reachable through `children` lists. -/
inductive FiberTree where
  | mk (data : FiberData) (children : List FiberTree)

mutual

/-- Number of fibers in a tree (the fiber itself plus all descendants). -/
def sizeT : FiberTree → Nat
  | .mk _ cs => 1 + sizeL cs

/-- Number of fibers in a forest. -/
def sizeL : List FiberTree → Nat
  | [] => 0
  | t :: ts => sizeT t + sizeL ts
end


mutual

/-- Number of fibers in a tree whose output (`bdom`) is still unset. -/
def unsetT : FiberTree → Nat
  | .mk d cs => (if d.bdom then 0 else 1) + unsetL cs

/-- Number of fibers in a forest whose output is still unset. -/
def unsetL : List FiberTree → Nat
  | [] => 0
  | t :: ts => unsetT t + unsetL ts
end


mutual

/-- Number of fibers in a tree whose output (`bdom`) is set. -/
def setT : FiberTree → Nat
  | .mk d cs => (if d.bdom then 1 else 0) + setL cs

/-- Number of fibers in a forest whose output is set. -/
def setL : List FiberTree → Nat
  | [] => 0
  | t :: ts => setT t + setL ts
end


mutual

/-- Node ids of all fibers in a tree, in visit order. -/
def nodesT : FiberTree → List Nat
  | .mk d cs => d.node :: nodesL cs

/-- Node ids of all fibers in a forest. -/
def nodesL : List FiberTree → List Nat
  | [] => []
  | t :: ts => nodesT t ++ nodesL ts
end


mutual

/-- All fibers in the tree have `root = r`. -/
def allRootT (r : Nat) : FiberTree → Bool
  | .mk d cs => (d.root == r) && allRootL r cs

/-- All fibers in the forest have `root = r`. -/
def allRootL (r : Nat) : List FiberTree → Bool
  | [] => true
  | t :: ts => allRootT r t && allRootL r ts
end


mutual

/-- Source `cancelFibers`, one fiber: clears the node back-reference
(recorded in the returned list of node ids), reassigns `root` to the new
root, recurses into the children, and counts fibers with unset output.
Returns the updated tree, the count, and the cleared node ids. -/
def cancelFiberT (root : Nat) : FiberTree → FiberTree × Nat × List Nat
  | .mk d cs =>
    let r := cancelFiberL root cs
    (.mk { d with root := root } r.1,
     (if d.bdom then 0 else 1) + r.2.1,
     d.node :: r.2.2)

/-- Source `cancelFibers(root, fibers)` on a list of fibers. -/
def cancelFiberL (root : Nat) : List FiberTree → List FiberTree × Nat × List Nat
  | [] => ([], 0, [])
  | t :: ts =>
    let a := cancelFiberT root t
    let b := cancelFiberL root ts
    (a.1 :: b.1, a.2.1 + b.2.1, a.2.2 ++ b.2.2)
end


mutual

/-- The cancellation count for one fiber is the number of fibers with unset
output in its subtree. -/
theorem cancelFiberT_count (r : Nat) (t : FiberTree) :
    (cancelFiberT r t).2.1 = unsetT t := by
  cases t with
  | mk d cs =>
    simp only [cancelFiberT, unsetT]
    rw [cancelFiberL_count]

/-- The cancellation count for a forest is the number of fibers with unset
output in it. -/
theorem cancelFiberL_count (r : Nat) (fs : List FiberTree) :
    (cancelFiberL r fs).2.1 = unsetL fs := by
  cases fs with
  | nil => rfl
  | cons t ts =>
    simp only [cancelFiberL, unsetL]
    rw [cancelFiberT_count, cancelFiberL_count]
end

mutual

/-- Cancellation reassigns every fiber's `root` in the subtree. -/
theorem cancelFiberT_root (r : Nat) (t : FiberTree) :
    allRootT r (cancelFiberT r t).1 = true := by
  cases t with
  | mk d cs =>
    simp only [cancelFiberT, allRootT]
    rw [cancelFiberL_root]
    simp

/-- Cancellation reassigns every fiber's `root` in the forest. -/
theorem cancelFiberL_root (r : Nat) (fs : List FiberTree) :
    allRootL r (cancelFiberL r fs).1 = true := by
  cases fs with
  | nil => rfl
  | cons t ts =>
    simp only [cancelFiberL, allRootL]
    rw [cancelFiberT_root, cancelFiberL_root]
    rfl
end

mutual

/-- Cancellation clears the node back-reference of every fiber in the
subtree, in visit order. -/
theorem cancelFiberT_nodes (r : Nat) (t : FiberTree) :
    (cancelFiberT r t).2.2 = nodesT t := by
  cases t with
  | mk d cs =>
    simp only [cancelFiberT, nodesT]
    rw [cancelFiberL_nodes]

/-- Cancellation clears the node back-reference of every fiber in the
forest. -/
theorem cancelFiberL_nodes (r : Nat) (fs : List FiberTree) :
    (cancelFiberL r fs).2.2 = nodesL fs := by
  cases fs with
  | nil => rfl
  | cons t ts =>
    simp only [cancelFiberL, nodesL]
    rw [cancelFiberT_nodes, cancelFiberL_nodes]
end

mutual

/-- Unset-output and set-output fibers together exhaust a subtree. -/
theorem unsetT_add_setT (t : FiberTree) : unsetT t + setT t = sizeT t := by
  cases t with
  | mk d cs =>
    simp only [unsetT, setT, sizeT]
    rw [show (if d.bdom then 0 else 1) + unsetL cs + ((if d.bdom then 1 else 0) + setL cs)
        = ((if d.bdom then 0 else 1) + (if d.bdom then 1 else 0)) + (unsetL cs + setL cs) by ring]
    rw [unsetL_add_setL]
    cases d.bdom <;> simp

/-- Unset-output and set-output fibers together exhaust a forest. -/
theorem unsetL_add_setL (fs : List FiberTree) : unsetL fs + setL fs = sizeL fs := by
  cases fs with
  | nil => rfl
  | cons t ts =>
    simp only [unsetL, setL, sizeL]
    rw [show unsetT t + unsetL ts + (setT t + setL ts)
        = (unsetT t + setT t) + (unsetL ts + setL ts) by ring]
    rw [unsetT_add_setT, unsetL_add_setL]
end

/-- Claim C2: for every root fiber id `newRoot` and every forest of fibers
containing `K = sizeL fs` fibers of which `M = setL fs` have output set,
`cancelFibers(newRoot, fibers)` clears each visited fiber's node
back-reference, reassigns each visited fiber's root to `newRoot`, recurses
into all children, and returns exactly `K - M`, the number of visited fibers
whose output is still unset. -/
theorem cancelFibers_spec (newRoot : Nat) (fs : List FiberTree) :
    (cancelFiberL newRoot fs).2.1 = sizeL fs - setL fs
    ∧ allRootL newRoot (cancelFiberL newRoot fs).1 = true
    ∧ (cancelFiberL newRoot fs).2.2 = nodesL fs := by
  refine ⟨?_, cancelFiberL_root newRoot fs, cancelFiberL_nodes newRoot fs⟩
  rw [cancelFiberL_count, ← unsetL_add_setL]
  omega

/-! ### Root fiber bookkeeping: `RootFiber` constructor, `makeRootFiber`,
and the `Fiber` constructor (`new Fiber(node, parent)`). -/

/-- State of one root fiber batch: the root's `counter`, the root fiber's own
output flag, and the forest of descendant fibers reachable through the
`children` lists from the root. -/
structure RootState where
  counter : Int
  bdom : Bool
  children : List FiberTree

/-- Number of fibers in the batch's subtree (root included) whose output is
still unset. -/
def unsetCount (s : RootState) : Nat :=
  (if s.bdom then 0 else 1) + unsetL s.children

/-- The spec's counter invariant: `root.counter` equals the number of fibers
in the batch's subtree (root included) whose output is still unset. -/
def rootInv (s : RootState) : Prop :=
  s.counter = unsetCount s

instance (s : RootState) : Decidable (rootInv s) := by
  unfold rootInv; infer_instance

/-- `new RootFiber(node, null)`: `counter` starts at 1, no output, no
children. -/
def newRootState : RootState :=
  { counter := 1, bdom := false, children := [] }

/-- The recycling branch of `makeRootFiber` (the node already has an attached
fiber `current`, which is the root of the batch `s`; `rid` is its fiber id):
`root.counter -= cancelFibers(root, current.children)`, then
`current.children = []`, `root.counter++`, `current.bdom = null`. -/
def makeRootFiberRecycle (rid : Nat) (s : RootState) : RootState :=
  { counter := s.counter - ((cancelFiberL rid s.children).2.1 : Int) + 1,
    bdom := false,
    children := [] }

/-- `makeRootFiber(node)`: recycle the attached fiber when there is one
(returning the same fiber id `rid`), otherwise construct a fresh `RootFiber`
with id `freshFid`.  Returns the id of the returned fiber and the resulting
batch state. -/
def makeRootFiber (rid freshFid : Nat) : Option RootState → Nat × RootState
  | some s => (rid, makeRootFiberRecycle rid s)
  | none => (freshFid, newRootState)

mutual

/-- `parent.children.push(new Fiber(node, parent))` at the fiber addressed by
`path` inside a tree (empty path: push onto this fiber's children). -/
def pushT (leaf : FiberTree) : List Nat → FiberTree → FiberTree
  | [], .mk d cs => .mk d (cs ++ [leaf])
  | i :: p, .mk d cs => .mk d (pushL leaf i p cs)

/-- Push a new fiber at child index `i`, then along `p`, inside a forest. -/
def pushL (leaf : FiberTree) : Nat → List Nat → List FiberTree → List FiberTree
  | _, _, [] => []
  | 0, p, t :: ts => pushT leaf p t :: ts
  | i + 1, p, t :: ts => t :: pushL leaf i p ts
end

mutual

/-- `path` addresses an existing fiber of the tree. -/
def validPathT : List Nat → FiberTree → Bool
  | [], _ => true
  | i :: p, .mk _ cs => validPathL i p cs

/-- `i :: p` addresses an existing fiber of the forest. -/
def validPathL : Nat → List Nat → List FiberTree → Bool
  | _, _, [] => false
  | 0, p, t :: _ => validPathT p t
  | i + 1, p, _ :: ts => validPathL i p ts
end

/-- The `Fiber` constructor called with a parent inside batch `s` (source
lines 100–111): `root.counter++` and `parent.children.push(this)`, the new
fiber having unset output and `root = rid`.  `path = none` means the parent
is the root fiber itself; `path = some (i, p)` addresses the parent in the
root's children forest. -/
def constructChildFiber (rid nodeId fid : Nat) (path : Option (Nat × List Nat))
    (s : RootState) : RootState :=
  let leaf : FiberTree := .mk ⟨fid, nodeId, false, rid⟩ []
  { s with
    counter := s.counter + 1,
    children :=
      match path with
      | none => s.children ++ [leaf]
      | some (i, p) => pushL leaf i p s.children }

/-- The parent addressed by the path exists in the batch. -/
def validParent (path : Option (Nat × List Nat)) (s : RootState) : Bool :=
  match path with
  | none => true
  | some (i, p) => validPathL i p s.children

/-- Appending forests adds their unset counts. -/
theorem unsetL_append (fs gs : List FiberTree) :
    unsetL (fs ++ gs) = unsetL fs + unsetL gs := by
  induction fs with
  | nil => simp [unsetL]
  | cons t ts ih =>
    show unsetT t + unsetL (ts ++ gs) = unsetT t + unsetL ts + unsetL gs
    rw [ih]
    omega

mutual

/-- Pushing a fresh unset-output fiber at a valid path adds one unset fiber
to a tree. -/
theorem pushT_unset (fid nd r : Nat) (p : List Nat) (t : FiberTree)
    (h : validPathT p t = true) :
    unsetT (pushT (.mk ⟨fid, nd, false, r⟩ []) p t) = unsetT t + 1 := by
  cases t with
  | mk d cs =>
    cases p with
    | nil =>
      show (if d.bdom then 0 else 1)
            + unsetL (cs ++ [.mk ⟨fid, nd, false, r⟩ []])
          = (if d.bdom then 0 else 1) + unsetL cs + 1
      rw [unsetL_append]
      have h1 : unsetL [FiberTree.mk ⟨fid, nd, false, r⟩ []] = 1 := rfl
      rw [h1]
      omega
    | cons i p =>
      simp only [pushT, unsetT]
      rw [pushL_unset fid nd r i p cs (by simpa [validPathT] using h)]
      omega

/-- Pushing a fresh unset-output fiber at a valid path adds one unset fiber
to a forest. -/
theorem pushL_unset (fid nd r : Nat) (i : Nat) (p : List Nat)
    (fs : List FiberTree) (h : validPathL i p fs = true) :
    unsetL (pushL (.mk ⟨fid, nd, false, r⟩ []) i p fs) = unsetL fs + 1 := by
  cases fs with
  | nil => simp [validPathL] at h
  | cons t ts =>
    cases i with
    | zero =>
      simp only [pushL, unsetL]
      rw [pushT_unset fid nd r p t (by simpa [validPathL] using h)]
      omega
    | succ i =>
      simp only [pushL, unsetL]
      rw [pushL_unset fid nd r i p ts (by simpa [validPathL] using h)]
      omega
end

/-- A freshly created root batch whose render has not completed: the state
produced by `new RootFiber(node, null)`. -/
def pendingRoot : RootState := { counter := 1, bdom := false, children := [] }

/-- Claim C1, counterexample: the state of a fresh root fiber (counter 1, no
output, no children) satisfies the counter invariant, but recycling it with
`makeRootFiber` while its output is still unset yields counter 2 with only
one unset fiber in the subtree, so the invariant is not preserved by every
counter-mutating operation. -/
theorem counter_invariant_cex :
    rootInv pendingRoot ∧ ¬ rootInv (makeRootFiberRecycle 0 pendingRoot) := by
  decide

/-- Claim C1, amended: the counter equality (`root.counter` equals the number
of fibers in the batch's subtree, root included, whose output is unset) holds
for a fresh `RootFiber` and is preserved by the `Fiber` constructor (which
increments the counter and pushes an unset-output fiber onto an existing
parent's children) and by `makeRootFiber` recycling a fiber whose output is
already set; when `makeRootFiber` recycles a fiber whose output is still
unset, the counter instead ends up exceeding the number of unset fibers in
the subtree by exactly one. -/
theorem counter_invariant_amended (rid nodeId fid : Nat)
    (path : Option (Nat × List Nat)) (s : RootState)
    (hinv : rootInv s) (hpath : validParent path s = true) :
    rootInv newRootState
    ∧ rootInv (constructChildFiber rid nodeId fid path s)
    ∧ (s.bdom = true → rootInv (makeRootFiberRecycle rid s))
    ∧ (s.bdom = false →
        (makeRootFiberRecycle rid s).counter
          = (unsetCount (makeRootFiberRecycle rid s) : Int) + 1) := by
  refine ⟨by decide, ?_, ?_, ?_⟩
  · unfold rootInv unsetCount at hinv ⊢
    unfold constructChildFiber
    cases path with
    | none =>
      simp only
      rw [unsetL_append]
      have h1 : unsetL [FiberTree.mk ⟨fid, nodeId, false, rid⟩ []] = 1 := rfl
      rw [h1]
      omega
    | some ip =>
      obtain ⟨i, p⟩ := ip
      simp only
      rw [pushL_unset fid nodeId rid i p s.children
        (by simpa [validParent] using hpath)]
      omega
  · intro hb
    have h1 : unsetCount (makeRootFiberRecycle rid s) = 1 := rfl
    unfold rootInv at hinv ⊢
    rw [h1]
    unfold unsetCount at hinv
    rw [hb] at hinv
    simp at hinv
    simp only [makeRootFiberRecycle, cancelFiberL_count]
    omega
  · intro hb
    have h1 : unsetCount (makeRootFiberRecycle rid s) = 1 := rfl
    unfold rootInv at hinv
    rw [h1]
    unfold unsetCount at hinv
    rw [hb] at hinv
    simp at hinv
    simp only [makeRootFiberRecycle, cancelFiberL_count]
    omega

/-- A concrete invariant-satisfying batch: counter 2, root output unset, one
pending child fiber. -/
def recycleDemo : RootState :=
  { counter := 2, bdom := false, children := [.mk ⟨7, 3, false, 0⟩ []] }

/-- Claim C1, witness for the amended theorem at a concrete state. -/
theorem counter_invariant_amended_witness :
    rootInv recycleDemo
    ∧ validParent (some (0, [])) recycleDemo = true
    ∧ (rootInv newRootState
       ∧ rootInv (constructChildFiber 0 4 8 (some (0, [])) recycleDemo)
       ∧ (recycleDemo.bdom = true → rootInv (makeRootFiberRecycle 0 recycleDemo))
       ∧ (recycleDemo.bdom = false →
           (makeRootFiberRecycle 0 recycleDemo).counter
             = (unsetCount (makeRootFiberRecycle 0 recycleDemo) : Int) + 1)) :=
  ⟨by decide, by decide,
   counter_invariant_amended 0 4 8 (some (0, [])) recycleDemo (by decide) (by decide)⟩

/-- Claim C9, counterexample: calling `makeRootFiber` twice on the same node
(the fiber of the first call attached in between, no render completing)
returns the identical fiber both times, but the counter after the second
call is 2, not its value 1 after the first call: the second call increments
it again. -/
theorem makeRootFiber_twice_cex :
    (makeRootFiber (makeRootFiber 0 5 none).1 99
        (some (makeRootFiber 0 5 none).2)).1
      = (makeRootFiber 0 5 none).1
    ∧ (makeRootFiber (makeRootFiber 0 5 none).1 99
        (some (makeRootFiber 0 5 none).2)).2.counter
      ≠ (makeRootFiber 0 5 none).2.counter := by
  decide

/-- Claim C9, amended: calling `makeRootFiber` twice on the same node with
the fiber returned by the first call attached as `node.fiber` and no render
completing in between returns the identical Fiber object from both calls
(the fiber is recycled, never replaced), and after the second call the
root's counter is exactly one greater than its value after the first call
(each recycling call increments it again for the fresh render pass). -/
theorem makeRootFiber_recycle_amended (rid fid fid2 : Nat) :
    (makeRootFiber rid fid none).1 = fid
    ∧ (makeRootFiber fid fid2 (some (makeRootFiber rid fid none).2)).1 = fid
    ∧ (makeRootFiber fid fid2 (some (makeRootFiber rid fid none).2)).2.counter
      = (makeRootFiber rid fid none).2.counter + 1 := by
  refine ⟨rfl, rfl, ?_⟩
  show (makeRootFiberRecycle fid newRootState).counter = newRootState.counter + 1
  simp [makeRootFiberRecycle, newRootState, cancelFiberL]

/-! ### `makeChildFiber`: reconciling a node that already has an in-flight
fiber (source lines 23–48). -/

/-- Pre-state of the recycling branch of `makeChildFiber(node, parentFiber)`:
the fields of the descendant fiber `current = node.fiber`, the id and counter
of the new root `parentFiber.root`, the id and counter of `current.root`
(the counter is a separate observation of that root fiber object; the
function itself never touches any counter but the new root's), and the new
root's `willPatch`/`patched` queues (as fiber ids) for
`cleanPatchableFiber`. -/
structure ChildReconcileState where
  newRootId : Nat
  newCounter : Int
  oldRootId : Nat
  oldCounter : Int
  curFid : Nat
  curBdom : Bool
  curChildren : List FiberTree
  willPatchQ : List Nat
  patchedQ : List Nat

/-- Post-state of the recycling branch of `makeChildFiber`. -/
structure ChildReconcileOut where
  retFid : Nat
  newCounter : Int
  oldCounter : Int
  curRoot : Nat
  curParent : Nat
  curBdom : Bool
  curChildren : List FiberTree
  cancelledForest : List FiberTree
  clearedNodes : List Nat
  willPatchQ : List Nat
  patchedQ : List Nat

/-- The recycling branch of `makeChildFiber(node, parent)` (source lines
24–46): `root = parent.root`; `isSameRoot = (current.root === root)`;
`cancelFibers(root, current.children)` with the return value discarded;
`current.children = []`; `current.parent = parent`; conditional
`root.counter++`; `cleanPatchableFiber(current, root)` when `isSameRoot`
(`indexOf`/`splice` = erase the first occurrence); `current.bdom = null`;
`current.root = root`; return `current`. -/
def makeChildFiberRecycle (parentFid : Nat) (s : ChildReconcileState) :
    ChildReconcileOut :=
  let root := s.newRootId
  let isSameRoot := s.oldRootId == root
  let c := cancelFiberL root s.curChildren
  { retFid := s.curFid
    newCounter := if !isSameRoot || s.curBdom then s.newCounter + 1 else s.newCounter
    oldCounter := s.oldCounter
    curRoot := root
    curParent := parentFid
    curBdom := false
    curChildren := []
    cancelledForest := c.1
    clearedNodes := c.2.2
    willPatchQ := if isSameRoot then s.willPatchQ.erase s.curFid else s.willPatchQ
    patchedQ := if isSameRoot then s.patchedQ.erase s.curFid else s.patchedQ }

/-- A concrete reconciliation input: the descendant fiber (id 5, output
unset) was an independent root (id 1, counter 2) with one pending child
fiber, and is reached by a batch with root id 2. -/
def childDemo : ChildReconcileState :=
  { newRootId := 2, newCounter := 1, oldRootId := 1, oldCounter := 2,
    curFid := 5, curBdom := false,
    curChildren := [.mk ⟨9, 4, false, 1⟩ []],
    willPatchQ := [], patchedQ := [] }

/-- Claim C3, counterexample: with the descendant fiber an independent root
(old root 1 ≠ new root 2) and one pending child, `makeChildFiber` cancels
the descendant's children under the *new* root (their `root` fields end up
2, not the previous root 1) and discards the returned count, so the
superseded root's counter is not reduced by the not-yet-rendered count. -/
theorem makeChildFiber_cancel_root_cex :
    childDemo.oldRootId ≠ childDemo.newRootId
    ∧ (cancelFiberL childDemo.oldRootId childDemo.curChildren).2.1 = 1
    ∧ allRootL childDemo.newRootId
        (makeChildFiberRecycle 3 childDemo).cancelledForest = true
    ∧ allRootL childDemo.oldRootId
        (makeChildFiberRecycle 3 childDemo).cancelledForest = false
    ∧ (makeChildFiberRecycle 3 childDemo).oldCounter = childDemo.oldCounter
    ∧ (makeChildFiberRecycle 3 childDemo).oldCounter
        ≠ childDemo.oldCounter
          - ((cancelFiberL childDemo.oldRootId childDemo.curChildren).2.1 : Int) := by
  decide

/-- Claim C3, amended: when `makeChildFiber(node, parentFiber)` reconciles a
descendant node with an in-flight fiber, the descendant's pending children
are cancelled under the *new* root (`cancelFibers` is applied with
`parentFiber.root`, reassigning every cancelled fiber's root to it and
clearing every cancelled fiber's node back-reference), and the returned
not-yet-rendered count is discarded, so the superseded root's counter is not
modified; the descendant fiber itself is reparented to `parentFiber` and
`parentFiber.root`. -/
theorem makeChildFiber_reparent_amended (parentFid : Nat)
    (s : ChildReconcileState) :
    allRootL s.newRootId (makeChildFiberRecycle parentFid s).cancelledForest = true
    ∧ (makeChildFiberRecycle parentFid s).oldCounter = s.oldCounter
    ∧ (makeChildFiberRecycle parentFid s).curParent = parentFid
    ∧ (makeChildFiberRecycle parentFid s).curRoot = s.newRootId
    ∧ (makeChildFiberRecycle parentFid s).clearedNodes = nodesL s.curChildren :=
  ⟨cancelFiberL_root s.newRootId s.curChildren, rfl, rfl, rfl,
   cancelFiberL_nodes s.newRootId s.curChildren⟩

/-- Claim C4: in the recycling branch of `makeChildFiber`, the new root's
counter is incremented by exactly one if and only if the descendant's
previous root differs from `parentFiber.root` or the descendant's output is
already set; in particular, for a descendant that was an independent root
with a still-pending render, the counter increases by exactly one and the
descendant fiber's root afterwards equals the new root. -/
theorem makeChildFiber_counter_iff (parentFid : Nat)
    (s : ChildReconcileState) :
    ((makeChildFiberRecycle parentFid s).newCounter = s.newCounter + 1
      ↔ (s.oldRootId ≠ s.newRootId ∨ s.curBdom = true))
    ∧ (s.oldRootId ≠ s.newRootId → s.curBdom = false →
        (makeChildFiberRecycle parentFid s).newCounter = s.newCounter + 1
        ∧ (makeChildFiberRecycle parentFid s).curRoot = s.newRootId) := by
  constructor
  · show (if !(s.oldRootId == s.newRootId) || s.curBdom
          then s.newCounter + 1 else s.newCounter) = s.newCounter + 1
        ↔ (s.oldRootId ≠ s.newRootId ∨ s.curBdom = true)
    by_cases h : s.oldRootId = s.newRootId <;> cases hb : s.curBdom <;>
      simp [h, hb]
  · intro h hb
    refine ⟨?_, rfl⟩
    show (if !(s.oldRootId == s.newRootId) || s.curBdom
          then s.newCounter + 1 else s.newCounter) = s.newCounter + 1
    simp [h, hb]

/-- Claim C4, witness: the iff and the independent-root scenario evaluated
at the concrete reconciliation input. -/
theorem makeChildFiber_counter_iff_witness :
    childDemo.oldRootId ≠ childDemo.newRootId
    ∧ childDemo.curBdom = false
    ∧ (((makeChildFiberRecycle 3 childDemo).newCounter = childDemo.newCounter + 1
        ↔ (childDemo.oldRootId ≠ childDemo.newRootId ∨ childDemo.curBdom = true))
       ∧ (childDemo.oldRootId ≠ childDemo.newRootId → childDemo.curBdom = false →
           (makeChildFiberRecycle 3 childDemo).newCounter = childDemo.newCounter + 1
           ∧ (makeChildFiberRecycle 3 childDemo).curRoot = childDemo.newRootId)) :=
  ⟨by decide, by decide, makeChildFiber_counter_iff 3 childDemo⟩

/-! ### `RootFiber.complete` (source lines 125–179).

Callbacks are modelled as event emitters with an optional raised exception;
the log of one `complete()` call records each invocation as (phase, fiber
id, callback id). -/

/-- One lifecycle callback registered on a component node; `throws` is the
id of the exception it raises, if any. -/
structure Cb where
  id : Nat
  throws : Option Nat
  deriving Repr, DecidableEq

/-- The callback lists of a component node (`node.willPatch`,
`node.patched`, `node.mounted`). -/
structure CNode where
  willPatch : List Cb
  patched : List Cb
  mounted : List Cb
  deriving Repr, DecidableEq

/-- An entry of a root fiber's hook queue: the fiber's id, its node's id and
its `appliedToDom` flag at drain time. -/
structure QFiber where
  fid : Nat
  node : Nat
  appliedToDom : Bool
  deriving Repr, DecidableEq

/-- Hook phase of an invocation: willPatch, mounted or patched. -/
inductive Phase where
  | wp
  | m
  | p
  deriving Repr, DecidableEq

/-- One callback invocation: phase, fiber id, callback id. -/
structure Ev where
  phase : Phase
  fid : Nat
  cb : Nat
  deriving Repr, DecidableEq

/-- The `node.fiber` table (node id → id of its attached fiber). -/
def lookupNF : List (Nat × Nat) → Nat → Option Nat
  | [], _ => none
  | (n, f) :: rest, k => if n = k then some f else lookupNF rest k

/-- `node.fiber = null` for node `k`. -/
def clearNF (tbl : List (Nat × Nat)) (k : Nat) : List (Nat × Nat) :=
  tbl.filter (fun e => e.1 != k)

/-- The node callback table (node id → callbacks; absent nodes have none). -/
def lookupNode : List (Nat × CNode) → Nat → CNode
  | [], _ => ⟨[], [], []⟩
  | (n, c) :: rest, k => if n = k then c else lookupNode rest k

/-- Pre-state of one `RootFiber.complete()` call: the root fiber's id and
node, the `node.fiber` table, the node callbacks, the three hook queues of
the root and whether the patch primitive of step 2 throws (and with which
error id). -/
structure RState where
  rootFid : Nat
  rootNode : Nat
  nodeFiber : List (Nat × Nat)
  nodes : List (Nat × CNode)
  willPatchQ : List QFiber
  mountedQ : List QFiber
  patchedQ : List QFiber
  patchThrows : Option Nat
  deriving Repr, DecidableEq

/-- Result of a `complete()` call: the invocation log, the final `locked`
flag, the root's `appliedToDom`, the final `node.fiber` table, and the
`handleError` call (error id, fiber id handed over), if one was made. -/
structure CResult where
  log : List Ev
  locked : Bool
  appliedToDom : Bool
  nodeFiber : List (Nat × Nat)
  handled : Option (Nat × Nat)
  deriving Repr, DecidableEq

/-- Invoke a node's callbacks of one phase for fiber `fid`, in registration
order; a throwing callback ends the run with its error id. -/
def runCbs (ph : Phase) (fid : Nat) : List Cb → List Ev × Option Nat
  | [] => ([], none)
  | c :: cs =>
    match c.throws with
    | some e => ([⟨ph, fid, c.id⟩], some e)
    | none =>
      let r := runCbs ph fid cs
      (⟨ph, fid, c.id⟩ :: r.1, r.2)

/-- Step 1 of `complete()`: the `willPatch` queue in registration order; a
fiber that is no longer its node's current fiber is skipped (source line
136); otherwise its node's willPatch callbacks run in registration order.
Returns the log and, if a callback threw, the error id with the fiber that
was active. -/
def runWillPatch (nf : List (Nat × Nat)) (nodes : List (Nat × CNode)) :
    List QFiber → List Ev × Option (Nat × Nat)
  | [] => ([], none)
  | f :: fs =>
    if lookupNF nf f.node = some f.fid then
      let r := runCbs .wp f.fid (lookupNode nodes f.node).willPatch
      match r.2 with
      | some e => (r.1, some (e, f.fid))
      | none =>
        let rest := runWillPatch nf nodes fs
        (r.1 ++ rest.1, rest.2)
    else runWillPatch nf nodes fs

/-- The drain loop of steps 4 and 5 (`while (current = q.pop())`): fibers
are taken from the end of the queue, so the list passed here is the reversed
queue; a fiber whose `appliedToDom` is false is skipped (source lines 158,
169). -/
def runDrain (ph : Phase) (nodes : List (Nat × CNode))
    (select : CNode → List Cb) : List QFiber → List Ev × Option (Nat × Nat)
  | [] => ([], none)
  | f :: fs =>
    if f.appliedToDom then
      let r := runCbs ph f.fid (select (lookupNode nodes f.node))
      match r.2 with
      | some e => (r.1, some (e, f.fid))
      | none =>
        let rest := runDrain ph nodes select fs
        (r.1 ++ rest.1, rest.2)
    else runDrain ph nodes select fs

/-- `RootFiber.complete()` (source lines 125–179).  `locked` is set on
entry; step 1 runs the willPatch hooks; step 2 patches the dom (throw flag
`patchThrows`), then sets `appliedToDom`, releases `locked` and clears the
root node's fiber reference; step 4 drains `mounted` by popping; step 5
drains `patched` by popping.  Any exception aborts the remaining steps; the
catch releases `locked` and calls `handleError` with the fiber active at
failure time (`current || this`: the root fiber itself when no descendant
fiber was active). -/
def rootComplete (s : RState) : CResult :=
  let wp := runWillPatch s.nodeFiber s.nodes s.willPatchQ
  match wp.2 with
  | some ef =>
    { log := wp.1, locked := false, appliedToDom := false,
      nodeFiber := s.nodeFiber, handled := some ef }
  | none =>
    match s.patchThrows with
    | some e =>
      { log := wp.1, locked := false, appliedToDom := false,
        nodeFiber := s.nodeFiber, handled := some (e, s.rootFid) }
    | none =>
      let nf := clearNF s.nodeFiber s.rootNode
      let m := runDrain .m s.nodes CNode.mounted s.mountedQ.reverse
      match m.2 with
      | some ef =>
        { log := wp.1 ++ m.1, locked := false, appliedToDom := true,
          nodeFiber := nf, handled := some ef }
      | none =>
        let p := runDrain .p s.nodes CNode.patched s.patchedQ.reverse
        match p.2 with
        | some ef =>
          { log := wp.1 ++ m.1 ++ p.1, locked := false, appliedToDom := true,
            nodeFiber := nf, handled := some ef }
        | none =>
          { log := wp.1 ++ m.1 ++ p.1, locked := false, appliedToDom := true,
            nodeFiber := nf, handled := none }

/-- No callback of the list throws. -/
def cbsOk (cbs : List Cb) : Bool :=
  cbs.all (fun c => c.throws == none)

/-- Invocation events of one queue fiber in one phase, in registration
order. -/
def fiberEvs (ph : Phase) (nodes : List (Nat × CNode))
    (select : CNode → List Cb) (f : QFiber) : List Ev :=
  (select (lookupNode nodes f.node)).map (fun c => ⟨ph, f.fid, c.id⟩)

/-- A non-throwing callback list runs entirely, in registration order. -/
theorem runCbs_ok (ph : Phase) (fid : Nat) (cbs : List Cb)
    (h : cbsOk cbs = true) :
    runCbs ph fid cbs = (cbs.map (fun c => ⟨ph, fid, c.id⟩), none) := by
  induction cbs with
  | nil => rfl
  | cons c cs ih =>
    rw [cbsOk, List.all_cons] at h
    obtain ⟨h1, h2⟩ := Bool.and_eq_true_iff.mp h
    cases hc : c.throws with
    | some e => rw [hc] at h1; simp at h1
    | none =>
      simp only [runCbs, hc, ih h2, List.map_cons]

/-- With every queued fiber current for its node and no willPatch callback
throwing, step 1 runs every queued fiber's callbacks in queue order, each
fiber's callbacks in registration order, and raises nothing. -/
theorem runWillPatch_ok (nf : List (Nat × Nat)) (nodes : List (Nat × CNode))
    (q : List QFiber)
    (hg : q.all (fun f => lookupNF nf f.node == some f.fid) = true)
    (ht : q.all (fun f => cbsOk (lookupNode nodes f.node).willPatch) = true) :
    runWillPatch nf nodes q
      = ((q.map (fiberEvs .wp nodes CNode.willPatch)).flatten, none) := by
  induction q with
  | nil => rfl
  | cons f fs ih =>
    rw [List.all_cons] at hg ht
    obtain ⟨hg1, hg2⟩ := Bool.and_eq_true_iff.mp hg
    obtain ⟨ht1, ht2⟩ := Bool.and_eq_true_iff.mp ht
    have hguard : lookupNF nf f.node = some f.fid := by
      simpa using hg1
    simp only [runWillPatch, if_pos hguard, runCbs_ok .wp f.fid _ ht1,
      ih hg2 ht2, List.map_cons, List.flatten]
    rfl

/-- With every queued fiber's `appliedToDom` true and no callback of the
drained phase throwing, the pop-loop runs every queued fiber's callbacks in
the given (already reversed) order and raises nothing. -/
theorem runDrain_ok (ph : Phase) (nodes : List (Nat × CNode))
    (select : CNode → List Cb) (q : List QFiber)
    (hg : q.all (fun f => f.appliedToDom) = true)
    (ht : q.all (fun f => cbsOk (select (lookupNode nodes f.node))) = true) :
    runDrain ph nodes select q
      = ((q.map (fiberEvs ph nodes select)).flatten, none) := by
  induction q with
  | nil => rfl
  | cons f fs ih =>
    rw [List.all_cons] at hg ht
    obtain ⟨hg1, hg2⟩ := Bool.and_eq_true_iff.mp hg
    obtain ⟨ht1, ht2⟩ := Bool.and_eq_true_iff.mp ht
    simp only [runDrain, if_pos hg1, runCbs_ok ph f.fid _ ht1,
      ih hg2 ht2, List.map_cons, List.flatten]
    rfl

/-- Reversing a list does not change whether all elements satisfy a Boolean
predicate. -/
theorem all_reverse' {α : Type} (p : α → Bool) (l : List α) :
    l.reverse.all p = l.all p := by
  induction l with
  | nil => rfl
  | cons a l ih =>
    simp only [List.reverse_cons, List.all_append, List.all_cons,
      List.all_nil, ih]
    cases p a <;> cases l.all p <;> rfl

/-- After `node.fiber = null`, the node has no attached fiber. -/
theorem lookupNF_clearNF (tbl : List (Nat × Nat)) (k : Nat) :
    lookupNF (clearNF tbl k) k = none := by
  induction tbl with
  | nil => rfl
  | cons e rest ih =>
    obtain ⟨n, f⟩ := e
    by_cases h : n = k
    · simp only [clearNF, List.filter_cons, h]
      simpa [clearNF] using ih
    · simp only [clearNF, List.filter_cons]
      have hb : (n != k) = true := by simpa using h
      rw [hb]
      simp only [lookupNF, if_neg h]
      simpa [clearNF] using ih

/-- Every event emitted by a callback run carries the run's phase and fiber
id. -/
theorem runCbs_mem (ph : Phase) (fid : Nat) (cbs : List Cb) (e : Ev)
    (he : e ∈ (runCbs ph fid cbs).1) : e.phase = ph ∧ e.fid = fid := by
  induction cbs with
  | nil => simp [runCbs] at he
  | cons c cs ih =>
    rw [runCbs] at he
    cases hc : c.throws with
    | some err =>
      rw [hc] at he
      simp only [List.mem_singleton] at he
      subst he
      exact ⟨rfl, rfl⟩
    | none =>
      rw [hc] at he
      simp only [List.mem_cons] at he
      rcases he with he | he
      · subst he; exact ⟨rfl, rfl⟩
      · exact ih he

/-- Every event of the willPatch phase comes from a queued fiber that was
still its node's current fiber. -/
theorem runWillPatch_mem (nf : List (Nat × Nat)) (nodes : List (Nat × CNode))
    (q : List QFiber) (e : Ev)
    (he : e ∈ (runWillPatch nf nodes q).1) :
    e.phase = .wp
    ∧ ∃ f, f ∈ q ∧ lookupNF nf f.node = some f.fid ∧ e.fid = f.fid := by
  induction q with
  | nil => simp [runWillPatch] at he
  | cons f fs ih =>
    rw [runWillPatch] at he
    by_cases hg : lookupNF nf f.node = some f.fid
    · rw [if_pos hg] at he
      rcases hr : (runCbs .wp f.fid (lookupNode nodes f.node).willPatch).2 with _ | err
      · simp only [hr] at he
        simp only [List.mem_append] at he
        rcases he with he | he
        · obtain ⟨h1, h2⟩ := runCbs_mem _ _ _ _ he
          exact ⟨h1, f, List.mem_cons_self f fs, hg, h2⟩
        · obtain ⟨h1, g, hgq, hgg, hgf⟩ := ih he
          exact ⟨h1, g, List.mem_cons_of_mem f hgq, hgg, hgf⟩
      · simp only [hr] at he
        obtain ⟨h1, h2⟩ := runCbs_mem _ _ _ _ he
        exact ⟨h1, f, List.mem_cons_self f fs, hg, h2⟩
    · rw [if_neg hg] at he
      obtain ⟨h1, g, hgq, hgg, hgf⟩ := ih he
      exact ⟨h1, g, List.mem_cons_of_mem f hgq, hgg, hgf⟩

/-- Every event of a pop-drain comes from a queued fiber whose
`appliedToDom` was true. -/
theorem runDrain_mem (ph : Phase) (nodes : List (Nat × CNode))
    (select : CNode → List Cb) (q : List QFiber) (e : Ev)
    (he : e ∈ (runDrain ph nodes select q).1) :
    e.phase = ph ∧ ∃ f, f ∈ q ∧ f.appliedToDom = true ∧ e.fid = f.fid := by
  induction q with
  | nil => simp [runDrain] at he
  | cons f fs ih =>
    rw [runDrain] at he
    by_cases hg : f.appliedToDom = true
    · rw [if_pos hg] at he
      rcases hr : (runCbs ph f.fid (select (lookupNode nodes f.node))).2 with _ | err
      · simp only [hr] at he
        simp only [List.mem_append] at he
        rcases he with he | he
        · obtain ⟨h1, h2⟩ := runCbs_mem _ _ _ _ he
          exact ⟨h1, f, List.mem_cons_self f fs, hg, h2⟩
        · obtain ⟨h1, g, hgq, hgg, hgf⟩ := ih he
          exact ⟨h1, g, List.mem_cons_of_mem f hgq, hgg, hgf⟩
      · simp only [hr] at he
        obtain ⟨h1, h2⟩ := runCbs_mem _ _ _ _ he
        exact ⟨h1, f, List.mem_cons_self f fs, hg, h2⟩
    · rw [if_neg hg] at he
      obtain ⟨h1, g, hgq, hgg, hgf⟩ := ih he
      exact ⟨h1, g, List.mem_cons_of_mem f hgq, hgg, hgf⟩

/-- A run of non-throwing callbacks raises nothing. -/
theorem runCbs_noThrow (ph : Phase) (fid : Nat) (cbs : List Cb)
    (h : cbsOk cbs = true) : (runCbs ph fid cbs).2 = none := by
  rw [runCbs_ok ph fid cbs h]

/-- Step 1 raises nothing when no queued fiber's willPatch callbacks
throw. -/
theorem runWillPatch_noThrow (nf : List (Nat × Nat))
    (nodes : List (Nat × CNode)) (q : List QFiber)
    (ht : q.all (fun f => cbsOk (lookupNode nodes f.node).willPatch) = true) :
    (runWillPatch nf nodes q).2 = none := by
  induction q with
  | nil => rfl
  | cons f fs ih =>
    rw [List.all_cons] at ht
    obtain ⟨ht1, ht2⟩ := Bool.and_eq_true_iff.mp ht
    rw [runWillPatch]
    by_cases hg : lookupNF nf f.node = some f.fid
    · rw [if_pos hg]
      rw [runCbs_ok .wp f.fid _ ht1]
      exact ih ht2
    · rw [if_neg hg]
      exact ih ht2

/-- A pop-drain raises nothing when no queued fiber's callbacks of the
drained phase throw. -/
theorem runDrain_noThrow (ph : Phase) (nodes : List (Nat × CNode))
    (select : CNode → List Cb) (q : List QFiber)
    (ht : q.all (fun f => cbsOk (select (lookupNode nodes f.node))) = true) :
    (runDrain ph nodes select q).2 = none := by
  induction q with
  | nil => rfl
  | cons f fs ih =>
    rw [List.all_cons] at ht
    obtain ⟨ht1, ht2⟩ := Bool.and_eq_true_iff.mp ht
    rw [runDrain]
    by_cases hg : f.appliedToDom = true
    · rw [if_pos hg]
      rw [runCbs_ok ph f.fid _ ht1]
      exact ih ht2
    · rw [if_neg hg]
      exact ih ht2

/-- `complete()` always returns with `locked = false`, on the normal path
and on every failure path. -/
theorem rootComplete_locked (s : RState) : (rootComplete s).locked = false := by
  simp only [rootComplete]
  rcases hw : (runWillPatch s.nodeFiber s.nodes s.willPatchQ).2 with _ | ef
  · simp only [hw]
    rcases hp : s.patchThrows with _ | e
    · simp only [hp]
      rcases hm : (runDrain .m s.nodes CNode.mounted s.mountedQ.reverse).2 with _ | ef2
      · simp only [hm]
        rcases hq : (runDrain .p s.nodes CNode.patched s.patchedQ.reverse).2 with _ | ef3
        · simp only [hq]
        · simp only [hq]
      · simp only [hm]
    · simp only [hp]
  · simp only [hw]

/-- Every event of a `complete()` log comes from one of the three hook
runs. -/
theorem rootComplete_log_mem (s : RState) (e : Ev)
    (he : e ∈ (rootComplete s).log) :
    e ∈ (runWillPatch s.nodeFiber s.nodes s.willPatchQ).1
    ∨ e ∈ (runDrain .m s.nodes CNode.mounted s.mountedQ.reverse).1
    ∨ e ∈ (runDrain .p s.nodes CNode.patched s.patchedQ.reverse).1 := by
  rw [rootComplete] at he
  rcases hw : (runWillPatch s.nodeFiber s.nodes s.willPatchQ).2 with _ | ef
  · simp only [hw] at he
    rcases hp : s.patchThrows with _ | err
    · simp only [hp] at he
      rcases hm : (runDrain .m s.nodes CNode.mounted s.mountedQ.reverse).2 with _ | ef2
      · simp only [hm] at he
        rcases hq : (runDrain .p s.nodes CNode.patched s.patchedQ.reverse).2 with _ | ef3
        · simp only [hq, List.mem_append] at he
          tauto
        · simp only [hq, List.mem_append] at he
          tauto
      · simp only [hm, List.mem_append] at he
        tauto
    · simp only [hp] at he
      exact Or.inl he
  · simp only [hw] at he
    exact Or.inl he

/-! ### `MountFiber` (source lines 182–235). -/

/-- The `Position` type: insert before the target's first child or append
after its existing children. -/
inductive Position where
  | firstChild
  | lastChild
  deriving Repr, DecidableEq

/-- `MountFiber` constructor position handling:
`this.position = options.position || "last-child"` (absent option means
append). -/
def mountPosition : Option Position → Position
  | some p => p
  | none => .lastChild

/-- Pre-state of one `MountFiber.complete()` call: the mount fiber's id, its
node, whether the node already holds a previously produced output
(`node.bdom`, the crash-retry branch), throw flags of the `updateDom` and
`mount` primitives, the insertion position, the target container's child
list, an id for the inserted output, the node's current status and the
fiber's `appliedToDom`, plus the tables and `mounted` queue shared with the
`RootFiber.complete` model. -/
structure MState where
  rootFid : Nat
  rootNode : Nat
  nodeBdomSet : Bool
  updateDomThrows : Option Nat
  mountThrows : Option Nat
  position : Position
  targetChildren : List Nat
  bdomId : Nat
  statusMounted : Bool
  appliedToDom : Bool
  nodeFiber : List (Nat × Nat)
  nodes : List (Nat × CNode)
  mountedQ : List QFiber
  deriving Repr, DecidableEq

/-- Result of a `MountFiber.complete()` call. -/
structure MResult where
  log : List Ev
  nodeFiber : List (Nat × Nat)
  statusMounted : Bool
  appliedToDom : Bool
  targetChildren : List Nat
  handled : Option (Nat × Nat)
  deriving Repr, DecidableEq

/-- `MountFiber.complete()` (source lines 197–234).  `current` starts as
the mount fiber itself.  If the node already has an output, `updateDom()`
reapplies it in place; otherwise the output is stored and inserted into the
target: appended when `position === "last-child"` or the target has no
children, otherwise inserted before the target's first child.  Then
`node.fiber = null`, `node.status = MOUNTED`, `appliedToDom = true`, and the
`mounted` queue is drained by popping with the `appliedToDom` guard.  Any
exception is handed to `handleError` with the active fiber (the mount fiber
itself if the primitive threw, the popped fiber if a mounted callback
threw). -/
def mountComplete (s : MState) : MResult :=
  let prim : Option Nat × List Nat :=
    if s.nodeBdomSet then (s.updateDomThrows, s.targetChildren)
    else
      match s.mountThrows with
      | some e => (some e, s.targetChildren)
      | none =>
        if s.position = .lastChild ∨ s.targetChildren.length = 0 then
          (none, s.targetChildren ++ [s.bdomId])
        else
          (none, s.bdomId :: s.targetChildren)
  match prim.1 with
  | some e =>
    { log := [], nodeFiber := s.nodeFiber, statusMounted := s.statusMounted,
      appliedToDom := s.appliedToDom, targetChildren := prim.2,
      handled := some (e, s.rootFid) }
  | none =>
    let nf := clearNF s.nodeFiber s.rootNode
    let m := runDrain .m s.nodes CNode.mounted s.mountedQ.reverse
    match m.2 with
    | some ef =>
      { log := m.1, nodeFiber := nf, statusMounted := true,
        appliedToDom := true, targetChildren := prim.2, handled := some ef }
    | none =>
      { log := m.1, nodeFiber := nf, statusMounted := true,
        appliedToDom := true, targetChildren := prim.2, handled := none }

/-- Every event of a `MountFiber.complete()` log comes from its mounted
drain. -/
theorem mountComplete_log_mem (s : MState) (e : Ev)
    (he : e ∈ (mountComplete s).log) :
    e ∈ (runDrain .m s.nodes CNode.mounted s.mountedQ.reverse).1 := by
  rw [mountComplete] at he
  rcases hb : s.nodeBdomSet with _ | _
  · simp [hb] at he
    rcases ht : s.mountThrows with _ | err
    · simp only [ht] at he
      by_cases hc : s.position = Position.lastChild ∨ s.targetChildren = []
      · simp only [if_pos hc] at he
        rcases hm : (runDrain .m s.nodes CNode.mounted s.mountedQ.reverse).2 with _ | ef
        all_goals simp only [hm] at he
        all_goals exact he
      · simp only [if_neg hc] at he
        rcases hm : (runDrain .m s.nodes CNode.mounted s.mountedQ.reverse).2 with _ | ef
        all_goals simp only [hm] at he
        all_goals exact he
    · simp only [ht] at he
      simp at he
  · simp only [hb, if_pos rfl] at he
    rcases ht : s.updateDomThrows with _ | err
    all_goals simp only [ht] at he
    · rcases hm : (runDrain .m s.nodes CNode.mounted s.mountedQ.reverse).2 with _ | ef
      all_goals simp only [hm] at he
      all_goals exact he
    · simp at he

/-- A commit whose patched queue holds fiber 1 (node 10, callback 11)
registered before fiber 2 (node 20, callback 21), with no other work. -/
def orderDemo : RState :=
  { rootFid := 0, rootNode := 0, nodeFiber := [],
    nodes := [(10, ⟨[], [⟨11, none⟩], []⟩), (20, ⟨[], [⟨21, none⟩], []⟩)],
    willPatchQ := [], mountedQ := [],
    patchedQ := [⟨1, 10, true⟩, ⟨2, 20, true⟩],
    patchThrows := none }

/-- Claim C5, counterexample: with two patched-queue fibers, the commit
invokes the later-registered fiber's patched callback first (the queue is
drained by popping), so patched callbacks do not fire in registration
(FIFO) order. -/
theorem patched_order_cex :
    (rootComplete orderDemo).log = [⟨.p, 2, 21⟩, ⟨.p, 1, 11⟩]
    ∧ (rootComplete orderDemo).log ≠ [⟨.p, 1, 11⟩, ⟨.p, 2, 21⟩] := by
  decide

/-- Claim C5, amended: within one commit (all queued fibers current for
their nodes, `appliedToDom` set, nothing throwing), the willPatch callbacks
fire in registration (FIFO) order of their queue, while the mounted
callbacks and the patched callbacks each fire in reverse-registration
(LIFO) order of their queues; each fiber's own callbacks run in
registration order. -/
theorem complete_hook_order_amended (s : RState)
    (hwpg : s.willPatchQ.all
      (fun f => lookupNF s.nodeFiber f.node == some f.fid) = true)
    (hwpt : s.willPatchQ.all
      (fun f => cbsOk (lookupNode s.nodes f.node).willPatch) = true)
    (hpt : s.patchThrows = none)
    (hmg : s.mountedQ.all (fun f => f.appliedToDom) = true)
    (hmt : s.mountedQ.all
      (fun f => cbsOk (lookupNode s.nodes f.node).mounted) = true)
    (hpg : s.patchedQ.all (fun f => f.appliedToDom) = true)
    (hptt : s.patchedQ.all
      (fun f => cbsOk (lookupNode s.nodes f.node).patched) = true) :
    (rootComplete s).log
      = (s.willPatchQ.map (fiberEvs .wp s.nodes CNode.willPatch)).flatten
        ++ (s.mountedQ.reverse.map (fiberEvs .m s.nodes CNode.mounted)).flatten
        ++ (s.patchedQ.reverse.map (fiberEvs .p s.nodes CNode.patched)).flatten := by
  have hw := runWillPatch_ok s.nodeFiber s.nodes s.willPatchQ hwpg hwpt
  have hm := runDrain_ok .m s.nodes CNode.mounted s.mountedQ.reverse
    (by rw [all_reverse']; exact hmg) (by rw [all_reverse']; exact hmt)
  have hp := runDrain_ok .p s.nodes CNode.patched s.patchedQ.reverse
    (by rw [all_reverse']; exact hpg) (by rw [all_reverse']; exact hptt)
  rw [rootComplete]
  simp only [hw, hpt, hm, hp]

/-- Claim C5, witness: the amended ordering at the concrete two-fiber
patched queue. -/
theorem complete_hook_order_amended_witness :
    orderDemo.willPatchQ.all
      (fun f => lookupNF orderDemo.nodeFiber f.node == some f.fid) = true
    ∧ orderDemo.willPatchQ.all
      (fun f => cbsOk (lookupNode orderDemo.nodes f.node).willPatch) = true
    ∧ orderDemo.patchThrows = none
    ∧ orderDemo.mountedQ.all (fun f => f.appliedToDom) = true
    ∧ orderDemo.mountedQ.all
      (fun f => cbsOk (lookupNode orderDemo.nodes f.node).mounted) = true
    ∧ orderDemo.patchedQ.all (fun f => f.appliedToDom) = true
    ∧ orderDemo.patchedQ.all
      (fun f => cbsOk (lookupNode orderDemo.nodes f.node).patched) = true
    ∧ (rootComplete orderDemo).log
      = (orderDemo.willPatchQ.map
          (fiberEvs .wp orderDemo.nodes CNode.willPatch)).flatten
        ++ (orderDemo.mountedQ.reverse.map
          (fiberEvs .m orderDemo.nodes CNode.mounted)).flatten
        ++ (orderDemo.patchedQ.reverse.map
          (fiberEvs .p orderDemo.nodes CNode.patched)).flatten :=
  ⟨by decide, by decide, by decide, by decide, by decide, by decide, by decide,
   complete_hook_order_amended orderDemo (by decide) (by decide) (by decide)
     (by decide) (by decide) (by decide) (by decide)⟩

/-- A commit whose mounted queue holds fiber 3 for node 1 with
`appliedToDom` true while node 1's current fiber is null (fiber 3 is
stale); node 1 has mounted callback 7. -/
def staleDemo : RState :=
  { rootFid := 0, rootNode := 0, nodeFiber := [],
    nodes := [(1, ⟨[], [], [⟨7, none⟩]⟩)],
    willPatchQ := [], mountedQ := [⟨3, 1, true⟩], patchedQ := [],
    patchThrows := none }

/-- Claim C6, counterexample: a fiber that is no longer its node's current
fiber when the mounted queue is drained still has its mounted callback
invoked — the drain of steps 4/5 guards on `appliedToDom`, not on
staleness. -/
theorem stale_hook_cex :
    lookupNF staleDemo.nodeFiber 1 ≠ some 3
    ∧ (⟨.m, 3, 7⟩ : Ev) ∈ (rootComplete staleDemo).log := by
  decide

/-- Claim C6, amended: during `RootFiber.complete`, a fiber no longer equal
to its node's current fiber when the willPatch queue is drained never has a
willPatch callback invoked; the mounted and patched drains of
`RootFiber.complete` and the mounted drain of `MountFiber.complete` are
instead guarded by `appliedToDom`: a fiber whose `appliedToDom` is false at
drain time never has a mounted or patched callback invoked (a stale fiber
with `appliedToDom` true does — see the counterexample). -/
theorem hook_guards_amended (s : RState) (ms : MState) (f : QFiber)
    (hwp_node : ∀ g ∈ s.willPatchQ, g.fid = f.fid → g.node = f.node) :
    (lookupNF s.nodeFiber f.node ≠ some f.fid →
      ∀ e ∈ (rootComplete s).log, ¬(e.phase = .wp ∧ e.fid = f.fid))
    ∧ ((∀ g ∈ s.mountedQ, g.fid = f.fid → g.appliedToDom = false) →
      ∀ e ∈ (rootComplete s).log, ¬(e.phase = .m ∧ e.fid = f.fid))
    ∧ ((∀ g ∈ s.patchedQ, g.fid = f.fid → g.appliedToDom = false) →
      ∀ e ∈ (rootComplete s).log, ¬(e.phase = .p ∧ e.fid = f.fid))
    ∧ ((∀ g ∈ ms.mountedQ, g.fid = f.fid → g.appliedToDom = false) →
      ∀ e ∈ (mountComplete ms).log, e.fid ≠ f.fid) := by
  refine ⟨?_, ?_, ?_, ?_⟩
  · rintro hstale e helog ⟨hph, hfid⟩
    rcases rootComplete_log_mem s e helog with hin | hin | hin
    · obtain ⟨-, g, hgq, hguard, hef⟩ := runWillPatch_mem _ _ _ _ hin
      have hgf : g.fid = f.fid := hef.symm.trans hfid
      have hnode := hwp_node g hgq hgf
      rw [hnode, hgf] at hguard
      exact hstale hguard
    · obtain ⟨hm, -⟩ := runDrain_mem _ _ _ _ _ hin
      rw [hph] at hm
      exact Phase.noConfusion hm
    · obtain ⟨hm, -⟩ := runDrain_mem _ _ _ _ _ hin
      rw [hph] at hm
      exact Phase.noConfusion hm
  · rintro hall e helog ⟨hph, hfid⟩
    rcases rootComplete_log_mem s e helog with hin | hin | hin
    · obtain ⟨hm, -⟩ := runWillPatch_mem _ _ _ _ hin
      rw [hph] at hm
      exact Phase.noConfusion hm
    · obtain ⟨-, g, hgq, happ, hef⟩ := runDrain_mem _ _ _ _ _ hin
      rw [List.mem_reverse] at hgq
      have hbad := hall g hgq (hef.symm.trans hfid)
      rw [happ] at hbad
      exact Bool.noConfusion hbad
    · obtain ⟨hm, -⟩ := runDrain_mem _ _ _ _ _ hin
      rw [hph] at hm
      exact Phase.noConfusion hm
  · rintro hall e helog ⟨hph, hfid⟩
    rcases rootComplete_log_mem s e helog with hin | hin | hin
    · obtain ⟨hm, -⟩ := runWillPatch_mem _ _ _ _ hin
      rw [hph] at hm
      exact Phase.noConfusion hm
    · obtain ⟨hm, -⟩ := runDrain_mem _ _ _ _ _ hin
      rw [hph] at hm
      exact Phase.noConfusion hm
    · obtain ⟨-, g, hgq, happ, hef⟩ := runDrain_mem _ _ _ _ _ hin
      rw [List.mem_reverse] at hgq
      have hbad := hall g hgq (hef.symm.trans hfid)
      rw [happ] at hbad
      exact Bool.noConfusion hbad
  · rintro hall e helog hfid
    have hin := mountComplete_log_mem ms e helog
    obtain ⟨-, g, hgq, happ, hef⟩ := runDrain_mem _ _ _ _ _ hin
    rw [List.mem_reverse] at hgq
    have := hall g hgq (hef ▸ hfid)
    rw [happ] at this
    exact Bool.noConfusion this

/-- A minimal mount state with an empty mounted queue. -/
def mountDemo : MState :=
  { rootFid := 0, rootNode := 0, nodeBdomSet := false,
    updateDomThrows := none, mountThrows := none,
    position := .lastChild, targetChildren := [], bdomId := 0,
    statusMounted := false, appliedToDom := false,
    nodeFiber := [], nodes := [], mountedQ := [] }

/-- A fiber (id 9, node 2) that appears in no queue of `staleDemo`. -/
def probeF : QFiber := ⟨9, 2, true⟩

/-- Claim C6, witness for the amended guard theorem at concrete states. -/
theorem hook_guards_amended_witness :
    (∀ g ∈ staleDemo.willPatchQ, g.fid = probeF.fid → g.node = probeF.node)
    ∧ ((lookupNF staleDemo.nodeFiber probeF.node ≠ some probeF.fid →
        ∀ e ∈ (rootComplete staleDemo).log,
          ¬(e.phase = .wp ∧ e.fid = probeF.fid))
      ∧ ((∀ g ∈ staleDemo.mountedQ, g.fid = probeF.fid → g.appliedToDom = false) →
        ∀ e ∈ (rootComplete staleDemo).log,
          ¬(e.phase = .m ∧ e.fid = probeF.fid))
      ∧ ((∀ g ∈ staleDemo.patchedQ, g.fid = probeF.fid → g.appliedToDom = false) →
        ∀ e ∈ (rootComplete staleDemo).log,
          ¬(e.phase = .p ∧ e.fid = probeF.fid))
      ∧ ((∀ g ∈ mountDemo.mountedQ, g.fid = probeF.fid → g.appliedToDom = false) →
        ∀ e ∈ (mountComplete mountDemo).log, e.fid ≠ probeF.fid)) :=
  ⟨by decide, hook_guards_amended staleDemo mountDemo probeF (by decide)⟩

/-- Claim C7: error routing of `RootFiber.complete()`.  `locked` is false on
return on every path; when nothing throws, the error handler is not called;
when a willPatch callback, the patch primitive, a mounted callback or a
patched callback throws, all remaining steps of the call are skipped (the
log stops at the failure, the patch effects of step 2 happen only if step 2
was reached) and the handler receives exactly that error together with the
fiber active at failure time, the root fiber itself when no descendant
fiber was active (the patch step). -/
theorem complete_error_routing (s : RState) :
    (rootComplete s).locked = false
    ∧ (s.willPatchQ.all
        (fun f => cbsOk (lookupNode s.nodes f.node).willPatch) = true →
       s.patchThrows = none →
       s.mountedQ.all
        (fun f => cbsOk (lookupNode s.nodes f.node).mounted) = true →
       s.patchedQ.all
        (fun f => cbsOk (lookupNode s.nodes f.node).patched) = true →
       (rootComplete s).handled = none)
    ∧ (∀ ef, (runWillPatch s.nodeFiber s.nodes s.willPatchQ).2 = some ef →
        rootComplete s
          = { log := (runWillPatch s.nodeFiber s.nodes s.willPatchQ).1,
              locked := false, appliedToDom := false,
              nodeFiber := s.nodeFiber, handled := some ef })
    ∧ (∀ e, (runWillPatch s.nodeFiber s.nodes s.willPatchQ).2 = none →
        s.patchThrows = some e →
        rootComplete s
          = { log := (runWillPatch s.nodeFiber s.nodes s.willPatchQ).1,
              locked := false, appliedToDom := false,
              nodeFiber := s.nodeFiber, handled := some (e, s.rootFid) })
    ∧ (∀ ef, (runWillPatch s.nodeFiber s.nodes s.willPatchQ).2 = none →
        s.patchThrows = none →
        (runDrain .m s.nodes CNode.mounted s.mountedQ.reverse).2 = some ef →
        rootComplete s
          = { log := (runWillPatch s.nodeFiber s.nodes s.willPatchQ).1
                ++ (runDrain .m s.nodes CNode.mounted s.mountedQ.reverse).1,
              locked := false, appliedToDom := true,
              nodeFiber := clearNF s.nodeFiber s.rootNode,
              handled := some ef })
    ∧ (∀ ef, (runWillPatch s.nodeFiber s.nodes s.willPatchQ).2 = none →
        s.patchThrows = none →
        (runDrain .m s.nodes CNode.mounted s.mountedQ.reverse).2 = none →
        (runDrain .p s.nodes CNode.patched s.patchedQ.reverse).2 = some ef →
        rootComplete s
          = { log := (runWillPatch s.nodeFiber s.nodes s.willPatchQ).1
                ++ (runDrain .m s.nodes CNode.mounted s.mountedQ.reverse).1
                ++ (runDrain .p s.nodes CNode.patched s.patchedQ.reverse).1,
              locked := false, appliedToDom := true,
              nodeFiber := clearNF s.nodeFiber s.rootNode,
              handled := some ef }) := by
  refine ⟨rootComplete_locked s, ?_, ?_, ?_, ?_, ?_⟩
  · intro h1 h2 h3 h4
    have hw := runWillPatch_noThrow s.nodeFiber s.nodes s.willPatchQ h1
    have hm := runDrain_noThrow .m s.nodes CNode.mounted s.mountedQ.reverse
      (by rw [all_reverse']; exact h3)
    have hp := runDrain_noThrow .p s.nodes CNode.patched s.patchedQ.reverse
      (by rw [all_reverse']; exact h4)
    rw [rootComplete]
    simp only [hw, h2, hm, hp]
  · intro ef hef
    rw [rootComplete]
    simp only [hef]
  · intro e hwn hpe
    rw [rootComplete]
    simp only [hwn, hpe]
  · intro ef hwn hpn hme
    rw [rootComplete]
    simp only [hwn, hpn, hme]
  · intro ef hwn hpn hmn hpe
    rw [rootComplete]
    simp only [hwn, hpn, hmn, hpe]

/-- A commit whose single willPatch fiber (id 4, node 1, current for the
node) has a callback (id 13) that raises error 99. -/
def errDemo : RState :=
  { rootFid := 0, rootNode := 1, nodeFiber := [(1, 4)],
    nodes := [(1, ⟨[⟨13, some 99⟩], [], []⟩)],
    willPatchQ := [⟨4, 1, true⟩], mountedQ := [], patchedQ := [],
    patchThrows := none }

/-- Claim C7, witness: the routing theorem evaluated at a commit whose
willPatch callback throws error 99 from fiber 4. -/
theorem complete_error_routing_witness :
    (runWillPatch errDemo.nodeFiber errDemo.nodes errDemo.willPatchQ).2
      = some (99, 4)
    ∧ ((rootComplete errDemo).locked = false
      ∧ (errDemo.willPatchQ.all
          (fun f => cbsOk (lookupNode errDemo.nodes f.node).willPatch) = true →
         errDemo.patchThrows = none →
         errDemo.mountedQ.all
          (fun f => cbsOk (lookupNode errDemo.nodes f.node).mounted) = true →
         errDemo.patchedQ.all
          (fun f => cbsOk (lookupNode errDemo.nodes f.node).patched) = true →
         (rootComplete errDemo).handled = none)
      ∧ (∀ ef,
          (runWillPatch errDemo.nodeFiber errDemo.nodes errDemo.willPatchQ).2
            = some ef →
          rootComplete errDemo
            = { log := (runWillPatch errDemo.nodeFiber errDemo.nodes
                  errDemo.willPatchQ).1,
                locked := false, appliedToDom := false,
                nodeFiber := errDemo.nodeFiber, handled := some ef })
      ∧ (∀ e,
          (runWillPatch errDemo.nodeFiber errDemo.nodes errDemo.willPatchQ).2
            = none →
          errDemo.patchThrows = some e →
          rootComplete errDemo
            = { log := (runWillPatch errDemo.nodeFiber errDemo.nodes
                  errDemo.willPatchQ).1,
                locked := false, appliedToDom := false,
                nodeFiber := errDemo.nodeFiber, handled := some (e, errDemo.rootFid) })
      ∧ (∀ ef,
          (runWillPatch errDemo.nodeFiber errDemo.nodes errDemo.willPatchQ).2
            = none →
          errDemo.patchThrows = none →
          (runDrain .m errDemo.nodes CNode.mounted errDemo.mountedQ.reverse).2
            = some ef →
          rootComplete errDemo
            = { log := (runWillPatch errDemo.nodeFiber errDemo.nodes
                  errDemo.willPatchQ).1
                ++ (runDrain .m errDemo.nodes CNode.mounted
                  errDemo.mountedQ.reverse).1,
                locked := false, appliedToDom := true,
                nodeFiber := clearNF errDemo.nodeFiber errDemo.rootNode,
                handled := some ef })
      ∧ (∀ ef,
          (runWillPatch errDemo.nodeFiber errDemo.nodes errDemo.willPatchQ).2
            = none →
          errDemo.patchThrows = none →
          (runDrain .m errDemo.nodes CNode.mounted errDemo.mountedQ.reverse).2
            = none →
          (runDrain .p errDemo.nodes CNode.patched errDemo.patchedQ.reverse).2
            = some ef →
          rootComplete errDemo
            = { log := (runWillPatch errDemo.nodeFiber errDemo.nodes
                  errDemo.willPatchQ).1
                ++ (runDrain .m errDemo.nodes CNode.mounted
                  errDemo.mountedQ.reverse).1
                ++ (runDrain .p errDemo.nodes CNode.patched
                  errDemo.patchedQ.reverse).1,
                locked := false, appliedToDom := true,
                nodeFiber := clearNF errDemo.nodeFiber errDemo.rootNode,
                handled := some ef })) :=
  ⟨by decide, complete_error_routing errDemo⟩

/-- A mount whose node (node 0, fiber 5 attached) has no previous output and
whose mount primitive raises error 9. -/
def mountFailDemo : MState :=
  { rootFid := 5, rootNode := 0, nodeBdomSet := false,
    updateDomThrows := none, mountThrows := some 9,
    position := .lastChild, targetChildren := [], bdomId := 100,
    statusMounted := false, appliedToDom := false,
    nodeFiber := [(0, 5)], nodes := [], mountedQ := [] }

/-- Claim C8, counterexample: when the mount primitive throws, the error is
routed to the handler (with the mount fiber itself), but the node's fiber
reference is *not* cleared, the node's status is *not* marked mounted and
`appliedToDom` stays false — those updates sit after the mount step inside
the `try`. -/
theorem mount_throw_cex :
    (mountComplete mountFailDemo).handled = some (9, 5)
    ∧ lookupNF (mountComplete mountFailDemo).nodeFiber 0 = some 5
    ∧ (mountComplete mountFailDemo).statusMounted = false
    ∧ (mountComplete mountFailDemo).appliedToDom = false := by
  decide

/-- Claim C8, amended: a `MountFiber.complete()` call in which the
mount/patch primitive (`updateDom` or `mount`) does not throw — including
calls in which a mounted callback throws — clears the node's fiber
reference, marks the node's status as mounted and sets `appliedToDom` to
true; when the primitive itself throws, those updates are skipped and the
state is left untouched; in every case a raised exception is routed to the
error handler (with the mount fiber itself for a primitive failure, the
queued fiber for a mounted-callback failure) rather than rethrown. -/
theorem mountComplete_amended (s : MState) :
    (s.nodeBdomSet = true → s.updateDomThrows = none →
       lookupNF (mountComplete s).nodeFiber s.rootNode = none
       ∧ (mountComplete s).statusMounted = true
       ∧ (mountComplete s).appliedToDom = true)
    ∧ (s.nodeBdomSet = false → s.mountThrows = none →
       lookupNF (mountComplete s).nodeFiber s.rootNode = none
       ∧ (mountComplete s).statusMounted = true
       ∧ (mountComplete s).appliedToDom = true)
    ∧ (∀ e, s.nodeBdomSet = true → s.updateDomThrows = some e →
       mountComplete s
         = { log := [], nodeFiber := s.nodeFiber,
             statusMounted := s.statusMounted,
             appliedToDom := s.appliedToDom,
             targetChildren := s.targetChildren,
             handled := some (e, s.rootFid) })
    ∧ (∀ e, s.nodeBdomSet = false → s.mountThrows = some e →
       mountComplete s
         = { log := [], nodeFiber := s.nodeFiber,
             statusMounted := s.statusMounted,
             appliedToDom := s.appliedToDom,
             targetChildren := s.targetChildren,
             handled := some (e, s.rootFid) })
    ∧ (∀ ef, s.nodeBdomSet = false → s.mountThrows = none →
       (runDrain .m s.nodes CNode.mounted s.mountedQ.reverse).2 = some ef →
       (mountComplete s).handled = some ef
       ∧ lookupNF (mountComplete s).nodeFiber s.rootNode = none
       ∧ (mountComplete s).statusMounted = true
       ∧ (mountComplete s).appliedToDom = true) := by
  refine ⟨?_, ?_, ?_, ?_, ?_⟩
  · intro hb hu
    rcases hm : (runDrain .m s.nodes CNode.mounted s.mountedQ.reverse).2 with _ | ef
    all_goals simp [mountComplete, hb, hu, hm, lookupNF_clearNF]
  · intro hb ht
    by_cases hc : s.position = Position.lastChild ∨ s.targetChildren = []
    all_goals rcases hm : (runDrain .m s.nodes CNode.mounted s.mountedQ.reverse).2 with _ | ef
    all_goals simp [mountComplete, hb, ht, hc, hm, lookupNF_clearNF]
  · intro e hb hu
    simp [mountComplete, hb, hu]
  · intro e hb ht
    simp [mountComplete, hb, ht]
  · intro ef hb ht hm
    by_cases hc : s.position = Position.lastChild ∨ s.targetChildren = []
    all_goals simp [mountComplete, hb, ht, hc, hm, lookupNF_clearNF]

/-- A mount with no previous output, a non-throwing mount primitive and one
mounted-queue fiber (id 6, node 1, applied) whose mounted callback (id 7)
raises error 42. -/
def mountCbDemo : MState :=
  { rootFid := 5, rootNode := 0, nodeBdomSet := false,
    updateDomThrows := none, mountThrows := none,
    position := .lastChild, targetChildren := [], bdomId := 100,
    statusMounted := false, appliedToDom := false,
    nodeFiber := [(0, 5)], nodes := [(1, ⟨[], [], [⟨7, some 42⟩]⟩)],
    mountedQ := [⟨6, 1, true⟩] }

/-- Claim C8, witness: the amended theorem evaluated at a mount whose
mounted callback throws error 42; the node updates still happen and the
handler receives the queued fiber. -/
theorem mountComplete_amended_witness :
    mountCbDemo.nodeBdomSet = false
    ∧ mountCbDemo.mountThrows = none
    ∧ (runDrain .m mountCbDemo.nodes CNode.mounted
        mountCbDemo.mountedQ.reverse).2 = some (42, 6)
    ∧ ((mountCbDemo.nodeBdomSet = true → mountCbDemo.updateDomThrows = none →
         lookupNF (mountComplete mountCbDemo).nodeFiber mountCbDemo.rootNode = none
         ∧ (mountComplete mountCbDemo).statusMounted = true
         ∧ (mountComplete mountCbDemo).appliedToDom = true)
      ∧ (mountCbDemo.nodeBdomSet = false → mountCbDemo.mountThrows = none →
         lookupNF (mountComplete mountCbDemo).nodeFiber mountCbDemo.rootNode = none
         ∧ (mountComplete mountCbDemo).statusMounted = true
         ∧ (mountComplete mountCbDemo).appliedToDom = true)
      ∧ (∀ e, mountCbDemo.nodeBdomSet = true →
         mountCbDemo.updateDomThrows = some e →
         mountComplete mountCbDemo
           = { log := [], nodeFiber := mountCbDemo.nodeFiber,
               statusMounted := mountCbDemo.statusMounted,
               appliedToDom := mountCbDemo.appliedToDom,
               targetChildren := mountCbDemo.targetChildren,
               handled := some (e, mountCbDemo.rootFid) })
      ∧ (∀ e, mountCbDemo.nodeBdomSet = false →
         mountCbDemo.mountThrows = some e →
         mountComplete mountCbDemo
           = { log := [], nodeFiber := mountCbDemo.nodeFiber,
               statusMounted := mountCbDemo.statusMounted,
               appliedToDom := mountCbDemo.appliedToDom,
               targetChildren := mountCbDemo.targetChildren,
               handled := some (e, mountCbDemo.rootFid) })
      ∧ (∀ ef, mountCbDemo.nodeBdomSet = false →
         mountCbDemo.mountThrows = none →
         (runDrain .m mountCbDemo.nodes CNode.mounted
           mountCbDemo.mountedQ.reverse).2 = some ef →
         (mountComplete mountCbDemo).handled = some ef
         ∧ lookupNF (mountComplete mountCbDemo).nodeFiber mountCbDemo.rootNode = none
         ∧ (mountComplete mountCbDemo).statusMounted = true
         ∧ (mountComplete mountCbDemo).appliedToDom = true)) :=
  ⟨by decide, by decide, by decide, mountComplete_amended mountCbDemo⟩

/-- Claim C10: a `MountFiber` constructed without a position option has
position `last-child`; `MountFiber.complete` inserts the output before the
target's first existing child exactly when the position is `first-child`
and the target already has a child, and appends it in every other case
(position `last-child`, or an empty target). -/
theorem mountFiber_position_spec (s : MState)
    (h1 : s.nodeBdomSet = false) (h2 : s.mountThrows = none) :
    mountPosition none = .lastChild
    ∧ (s.position = .firstChild → s.targetChildren ≠ [] →
        (mountComplete s).targetChildren = s.bdomId :: s.targetChildren)
    ∧ (s.position = .lastChild ∨ s.targetChildren = [] →
        (mountComplete s).targetChildren = s.targetChildren ++ [s.bdomId]) := by
  refine ⟨rfl, ?_, ?_⟩
  · intro hp hne
    have hc : ¬(s.position = Position.lastChild ∨ s.targetChildren = []) := by
      rintro (h | h)
      · rw [hp] at h
        exact Position.noConfusion h
      · exact hne h
    rcases hm : (runDrain .m s.nodes CNode.mounted s.mountedQ.reverse).2 with _ | ef
    all_goals simp [mountComplete, h1, h2, hc, hm]
  · intro hcond
    rcases hm : (runDrain .m s.nodes CNode.mounted s.mountedQ.reverse).2 with _ | ef
    all_goals simp [mountComplete, h1, h2, hcond, hm]

/-- A mount at position `first-child` into a target that already has one
child (id 55). -/
def mountPosDemo : MState :=
  { rootFid := 0, rootNode := 0, nodeBdomSet := false,
    updateDomThrows := none, mountThrows := none,
    position := .firstChild, targetChildren := [55], bdomId := 100,
    statusMounted := false, appliedToDom := false,
    nodeFiber := [], nodes := [], mountedQ := [] }

/-- Claim C10, witness: the position behaviour at a concrete first-child
mount into a non-empty target. -/
theorem mountFiber_position_spec_witness :
    mountPosDemo.nodeBdomSet = false
    ∧ mountPosDemo.mountThrows = none
    ∧ (mountPosition none = .lastChild
      ∧ (mountPosDemo.position = .firstChild → mountPosDemo.targetChildren ≠ [] →
          (mountComplete mountPosDemo).targetChildren
            = mountPosDemo.bdomId :: mountPosDemo.targetChildren)
      ∧ (mountPosDemo.position = .lastChild ∨ mountPosDemo.targetChildren = [] →
          (mountComplete mountPosDemo).targetChildren
            = mountPosDemo.targetChildren ++ [mountPosDemo.bdomId])) :=
  ⟨by decide, by decide, mountFiber_position_spec mountPosDemo (by decide) (by decide)⟩

end OwlFibers
